import Mathlib

/-!
Verification development for the attribution engine in
`backend/engines/attribution/engine.py` together with the request model in
`backend/models/attribution.py`.

The Python code is shallowly embedded:
* floats become exact rationals (`ℚ`);
* Python dictionaries keyed by channel become association lists
  `List (String × ℚ)` in insertion order (with `defaultdict` read semantics
  captured by `dictGet`, which defaults to `0`);
* a Python `ZeroDivisionError` is modelled by returning `none` from an
  `Option`-valued function;
* `np.random.shuffle` is modelled by an explicit oracle
  `shuffle : ℕ → List String → List String` giving the result of the `i`-th
  shuffle call, so that stochastic sampling becomes a deterministic function
  of the oracle;
* Python `set` iteration order is unspecified, so the embedding fixes the
  first-occurrence order (`dedupFirst`); every place where the source
  observably depends on the order either sorts the set (`sorted(...)` in
  `calculate_attribution`) or feeds it through the shuffle oracle.
-/

namespace Attribution

section

attribute [local semireducible] Rat.add Rat.mul Rat.inv Rat.sub Rat.ofScientific

/-- `TouchPoint` from `backend/models/attribution.py`.  The `timestamp`
field (a datetime, never read by the engine) is omitted. -/
structure TouchPoint where
  channel : String
  context : Option String := none
  deriving DecidableEq

/-- `Journey` from `backend/models/attribution.py`. -/
structure Journey where
  journey_id : String
  path : List TouchPoint
  conversion : Bool
  conversion_value : ℚ := 0
  num_touchpoints : ℕ := 0
  duration_hours : ℚ := 0
  deriving DecidableEq

/-- The channel sequence of a journey's path
(`[tp.channel for tp in journey.path]`). -/
def pathChannels (j : Journey) : List String :=
  j.path.map TouchPoint.channel

/-- First-occurrence deduplication; the canonical enumeration order chosen
for Python's (order-unspecified) `set` of channels. -/
def dedupFirst : List String → List String
  | [] => []
  | c :: rest => c :: (dedupFirst rest).filter (fun x => x ≠ c)

/-- `_extract_channels`: the set of distinct channels appearing in any
journey's path, enumerated in first-occurrence order. -/
def extract_channels (journeys : List Journey) : List String :=
  dedupFirst (journeys.flatMap pathChannels)

/-- Code-point lexicographic comparison on character lists: the order
Python's `sorted` uses on strings.  (Core's `String.ltb` walks iterators and
does not reduce, so the same ordering is written out directly.) -/
def lexLe : List Char → List Char → Bool
  | [], _ => true
  | _ :: _, [] => false
  | a :: as, b :: bs =>
      if a.toNat < b.toNat then true
      else if b.toNat < a.toNat then false
      else lexLe as bs

/-- Python's string order. -/
def stringLe (a b : String) : Bool :=
  lexLe a.data b.data

/-- Insert into a sorted list of strings, preserving order. -/
def insertSorted (c : String) : List String → List String
  | [] => [c]
  | x :: xs => if stringLe c x then c :: x :: xs else x :: insertSorted c xs

/-- `sorted(...)` on a list of distinct strings (insertion sort; on distinct
keys any correct sort produces the same sorted list as Python's). -/
def sortChannels (l : List String) : List String :=
  l.foldr insertSorted []

/-- The `journeys_with_channel` / `channel_journeys` filter used throughout
the engine: journeys whose path contains the channel. -/
def journeysWith (journeys : List Journey) (c : String) : List Journey :=
  journeys.filter (fun j => j.path.any (fun tp => tp.channel == c))

/-- Dictionary read with `defaultdict(float)` / `.get(key, 0)` semantics. -/
def dictGet (d : List (String × ℚ)) (k : String) : ℚ :=
  (d.lookup k).getD 0

/-- Dictionary write `d[k] = v`: update in place if present, else append. -/
def dictSet : List (String × ℚ) → String → ℚ → List (String × ℚ)
  | [], k, v => [(k, v)]
  | (k', v') :: rest, k, v =>
      if k' = k then (k', v) :: rest else (k', v') :: dictSet rest k v

/-- Dictionary accumulate `d[k] += v` on a `defaultdict(float)`. -/
def dictAdd : List (String × ℚ) → String → ℚ → List (String × ℚ)
  | [], k, v => [(k, v)]
  | (k', v') :: rest, k, v =>
      if k' = k then (k', v' + v) :: rest else (k', v') :: dictAdd rest k v

/-- `sum(d.values())`. -/
def sumValues (d : List (String × ℚ)) : ℚ :=
  (d.map Prod.snd).sum

/-! ## MarkovAttribution: transition counts (`_build_transition_matrix`) -/

/-- Pointwise update of a two-argument counter. -/
def update2 (t : String → String → ℕ) (a b : String) (v : ℕ) :
    String → String → ℕ :=
  fun x y => if x = a ∧ y = b then v else t x y

/-- `for i in range(len(path_channels) - 1): transitions[path[i]][path[i+1]] += 1`. -/
def addAdjacent (t : String → String → ℕ) : List String → (String → String → ℕ)
  | [] => t
  | [_] => t
  | a :: b :: rest => addAdjacent (update2 t a b (t a b + 1)) (b :: rest)

/-- One journey's update in `_build_transition_matrix`'s main loop: skip
empty paths, count the path tuple, add adjacent-pair transitions, and add
the *running path-tuple count* to the last channel's `"conversion"` entry
(the source adds `path_counts[path_tuple]`, not `1`). -/
def buildStep (st : (String → String → ℕ) × (List String → ℕ)) (j : Journey) :
    (String → String → ℕ) × (List String → ℕ) :=
  match pathChannels j with
  | [] => st
  | c :: cs =>
      let pcs := c :: cs
      let pathCounts : List String → ℕ :=
        fun q => if q = pcs then st.2 pcs + 1 else st.2 q
      let t1 := addAdjacent st.1 pcs
      let last := pcs.getLast (List.cons_ne_nil c cs)
      let t2 := update2 t1 last "conversion"
        (t1 last "conversion" + pathCounts pcs)
      (t2, pathCounts)

/-- The raw transition counters and path-tuple counters accumulated by
`_build_transition_matrix` over all journeys. -/
def buildTransitions (journeys : List Journey) :
    (String → String → ℕ) × (List String → ℕ) :=
  journeys.foldl buildStep (fun _ _ => 0, fun _ => 0)

/-- Keys a transition row can carry: the channel universe plus the
synthetic `"conversion"` state (added once, as in a Python dict). -/
def rowKeys (channels : List String) : List String :=
  if "conversion" ∈ channels then channels else channels ++ ["conversion"]

/-- `sum(transitions[channel].values())`: the support of the row is
contained in the channel universe plus `"conversion"`, so summing the
counter over `rowKeys` equals Python's sum over the row dict. -/
def rowTotal (t : String → String → ℕ) (channels : List String) (c : String) : ℕ :=
  ((rowKeys channels).map (t c)).sum

/-- One row of `_build_transition_matrix`'s returned matrix: each outgoing
count divided by the row total (`total = sum(...) or 1`), keyed over the
channel universe, with the `"conversion"` entry written last (overwriting,
as a Python dict assignment would, any channel literally named
`"conversion"`). -/
def transitionRow (t : String → String → ℕ) (channelList : List String)
    (c : String) : List (String × ℚ) :=
  let total := rowTotal t channelList c
  let totalQ : ℚ := if total = 0 then 1 else (total : ℚ)
  dictSet (channelList.map (fun k => (k, (t c k : ℚ) / totalQ)))
    "conversion" ((t c "conversion" : ℚ) / totalQ)

/-- `_build_transition_matrix`'s returned matrix. -/
def build_transition_matrix (journeys : List Journey) :
    List (String × List (String × ℚ)) :=
  let t := (buildTransitions journeys).1
  let channelList := extract_channels journeys
  channelList.map (fun c => (c, transitionRow t channelList c))

/-! ## MarkovAttribution: `calculate_attribution` -/

/-- The body of `calculate_attribution`'s per-channel loop, threading the
`attributions` and `removal_effects` dicts.  `none` models the
`ZeroDivisionError` raised when `baseline_conversion_rate` is `0` and the
division `(baseline - conversion_rate_without) / baseline` is reached.
Note two features of the source faithfully kept here: the attribution is
`removal_effect / total_effect` with the *raw* (possibly negative) effect
and with `total_effect` the sum of the effects stored *so far* (the
normalisation statement sits inside the loop). -/
def attributionGo (journeys : List Journey) (baseline : ℚ) :
    List String → List (String × ℚ) → List (String × ℚ) →
    Option (List (String × ℚ) × List (String × ℚ))
  | [], attributions, removalEffects => some (attributions, removalEffects)
  | c :: rest, attributions, removalEffects =>
      let jwc := journeysWith journeys c
      if jwc.isEmpty then
        attributionGo journeys baseline rest attributions
          (removalEffects ++ [(c, 0)])
      else
        if baseline = 0 then none
        else
          let conversionsWithout : ℚ :=
            ((jwc.filter (fun j => !j.conversion)).length : ℚ)
          let conversionRateWithout := conversionsWithout / (jwc.length : ℚ)
          let removalEffect := (baseline - conversionRateWithout) / baseline
          let removalEffects' := removalEffects ++ [(c, max 0 removalEffect)]
          let s := sumValues removalEffects'
          let totalEffect := if s = 0 then 1 else s
          attributionGo journeys baseline rest
            (attributions ++ [(c, removalEffect / totalEffect)]) removalEffects'

/-- `MarkovAttribution.calculate_attribution`, returning
`(attributions, removal_effects)`; `none` models a `ZeroDivisionError`. -/
def calculate_attribution (journeys : List Journey) :
    Option (List (String × ℚ) × List (String × ℚ)) :=
  if journeys.isEmpty then some ([], [])
  else
    let allConversions : ℕ := (journeys.filter (fun j => j.conversion)).length
    let baseline : ℚ := (allConversions : ℚ) / (journeys.length : ℚ)
    attributionGo journeys baseline
      (sortChannels (extract_channels journeys)) [] []

/-- `MarkovResult` (`confidence_interval`, which needs real square roots and
is touched by no claim, is omitted; its computation cannot raise). -/
structure MarkovResult where
  channel_attributions : List (String × ℚ)
  transition_matrix : List (String × List (String × ℚ))
  removal_effects : List (String × ℚ)
  total_conversions : ℕ
  deriving DecidableEq

/-- `MarkovAttribution.get_full_result`. -/
def markov_get_full_result (journeys : List Journey) : Option MarkovResult :=
  match calculate_attribution journeys with
  | none => none
  | some (attrs, res) =>
      some ⟨attrs, build_transition_matrix journeys, res,
            (journeys.filter (fun j => j.conversion)).length⟩

/-! ## ShapleyAttribution -/

/-- `frozenset` union with a singleton, `coalition | {channel}`; coalitions
are membership-lists. -/
def coalitionInsert (S : List String) (c : String) : List String :=
  if c ∈ S then S else S ++ [c]

/-- `frozenset` difference with a singleton, `coalition - {channel}`. -/
def coalitionErase (S : List String) (c : String) : List String :=
  S.filter (fun x => x ≠ c)

/-- `ShapleyAttribution._get_conversion_rate`: the coalition value `v(S)`.
The per-instance memoization cache is omitted: it only re-serves previously
computed values, so it does not change the function computed. -/
def get_conversion_rate (journeys : List Journey) (S : List String) : ℚ :=
  let relevant := journeys.filter (fun j => j.path.all (fun tp => tp.channel ∈ S))
  if relevant.isEmpty then 0
  else ((relevant.filter (fun j => j.conversion)).length : ℚ) / (relevant.length : ℚ)

/-- `ShapleyAttribution._marginal_contribution`. -/
def marginal_contribution (journeys : List Journey) (c : String)
    (coalition : List String) : ℚ :=
  get_conversion_rate journeys (coalitionInsert coalition c) -
    get_conversion_rate journeys (coalitionErase coalition c)

/-- The inner loop of one sampling iteration: walk the shuffled permutation,
recording each channel's marginal contribution to the running coalition.
State: (`shapley_values` dict, per-channel count of recorded marginal
contributions, i.e. `len(marginal_contributions[channel])`). -/
def walkPerm (journeys : List Journey) :
    List String → List String → List (String × ℚ) → (String → ℕ) →
    List (String × ℚ) × (String → ℕ)
  | [], _, sv, mc => (sv, mc)
  | c :: rest, coalition, sv, mc =>
      let m := marginal_contribution journeys c coalition
      walkPerm journeys rest (coalitionInsert coalition c)
        (dictAdd sv c m) (fun x => if x = c then mc x + 1 else mc x)

/-- The sampling loop: `count` remaining iterations, `i` the index of the
next shuffle-oracle call. -/
def sampleLoop (journeys : List Journey) (shuffle : ℕ → List String → List String)
    (channelList : List String) :
    ℕ → ℕ → List (String × ℚ) × (String → ℕ) →
    List (String × ℚ) × (String → ℕ)
  | _, 0, st => st
  | i, Nat.succ k, st =>
      sampleLoop journeys shuffle channelList (i + 1) k
        (walkPerm journeys (shuffle i channelList) [] st.1 st.2)

/-- The post-loop averaging: for each channel of the universe, divide its
accumulated value by the number of recorded contributions, or set it to `0`
if it never appeared. -/
def finalizeValues (channelList : List String)
    (st : List (String × ℚ) × (String → ℕ)) : List (String × ℚ) :=
  channelList.foldl (fun sv c =>
    if st.2 c ≠ 0 then dictSet sv c (dictGet sv c / (st.2 c : ℚ))
    else dictSet sv c 0) st.1

/-- `ShapleyAttribution.calculate_shapley_values`, with the shuffles
supplied by the oracle `shuffle` (call `i` yields `shuffle i channelList`)
and `maxIterations` the `max_iterations` constructor argument. -/
def calculate_shapley_values (shuffle : ℕ → List String → List String)
    (maxIterations : ℕ) (journeys : List Journey) : List (String × ℚ) :=
  let channelList := extract_channels journeys
  if journeys.isEmpty ∨ channelList.isEmpty then []
  else
    let n := channelList.length
    let numSamples := min maxIterations (2 ^ n)
    let st := sampleLoop journeys shuffle channelList 0 numSamples ([], fun _ => 0)
    let sv := finalizeValues channelList st
    let s := sumValues sv
    let totalValue := if s = 0 then 1 else s
    sv.map (fun kv => (kv.1, kv.2 / totalValue))

/-- `ShapleyResult`. -/
structure ShapleyResult where
  channel_values : List (String × ℚ)
  marginal_contributions : List (String × (ℚ × ℚ))
  convergence : Bool
  iterations : ℕ
  deriving DecidableEq

/-- `ShapleyAttribution.get_full_result`. -/
def shapley_get_full_result (shuffle : ℕ → List String → List String)
    (maxIterations : ℕ) (journeys : List Journey) : ShapleyResult :=
  let values := calculate_shapley_values shuffle maxIterations journeys
  let allChannels := extract_channels journeys
  let s := sumValues values
  let totalValue := if s = 0 then 1 else s
  let mcs := allChannels.map (fun c =>
    let channelValue := dictGet values c
    let percentage := if 0 < totalValue then channelValue / totalValue * 100 else 0
    (c, (channelValue, percentage)))
  ⟨values, mcs, true, min maxIterations (2 ^ allChannels.length)⟩

/-! ## HybridAttribution -/

/-- `HybridAttribution.calculate_attribution`: blend the Markov and Shapley
shares with weight `alpha`, then divide by the blended total (`or 1`).
`none` models the `ZeroDivisionError` propagating out of the Markov step. -/
def hybrid_calculate_attribution (shuffle : ℕ → List String → List String)
    (alpha : ℚ) (journeys : List Journey) : Option (List (String × ℚ)) :=
  match calculate_attribution journeys with
  | none => none
  | some (markovResult, _) =>
      let shapleyResult := calculate_shapley_values shuffle 1000 journeys
      let allChannels := extract_channels journeys
      let hybrid := allChannels.map (fun c =>
        (c, (1 - alpha) * dictGet markovResult c + alpha * dictGet shapleyResult c))
      let s := sumValues hybrid
      let total := if s = 0 then 1 else s
      some (hybrid.map (fun kv => (kv.1, kv.2 / total)))

/-- `HybridResult`. -/
structure HybridResult where
  channel_attributions : List (String × ℚ)
  alpha_used : ℚ
  markov_weight : ℚ
  shapley_weight : ℚ
  confidence_intervals : List (String × (ℚ × ℚ))
  deriving DecidableEq

/-- `HybridAttribution.get_full_result`.  (The source recomputes — and then
discards — the Markov attributions and Shapley values after the hybrid
blend; those dead computations are omitted.  They cannot raise whenever the
blend itself succeeded.) -/
def hybrid_get_full_result (shuffle : ℕ → List String → List String)
    (alpha : ℚ) (journeys : List Journey) : Option HybridResult :=
  match hybrid_calculate_attribution shuffle alpha journeys with
  | none => none
  | some hybrid =>
      let cis := (extract_channels journeys).map (fun c =>
        let ciLow := dictGet hybrid c - alpha * (1/20) - (1 - alpha) * (1/20)
        let ciHigh := dictGet hybrid c + alpha * (1/20) + (1 - alpha) * (1/20)
        (c, (max 0 ciLow, max 0 ciHigh)))
      some ⟨hybrid, alpha, 1 - alpha, alpha, cis⟩

/-! ## AttributionEngine -/

/-- `ChannelMetrics` as constructed by `_calculate_channel_metrics` (the
remaining model fields keep their pydantic defaults and are never set by the
engine; they are omitted). -/
structure ChannelMetrics where
  channel : String
  touchpoint_count : ℕ
  conversion_rate : ℚ
  avg_position : ℚ
  deriving DecidableEq

/-- Index of the first touchpoint with the given channel
(`for i, tp in enumerate(j.path): if tp.channel == channel: ...; break`). -/
def firstIndex (c : String) : List TouchPoint → Option ℕ
  | [] => none
  | tp :: rest =>
      if tp.channel = c then some 0 else (firstIndex c rest).map (· + 1)

/-- One iteration of `_calculate_channel_metrics`' loop: append the metrics
of channel `c`, or skip it when no journey contains it. -/
def channelMetricsStep (journeys : List Journey) (metrics : List ChannelMetrics)
    (c : String) : List ChannelMetrics :=
  let channelJourneys := journeysWith journeys c
  if channelJourneys.isEmpty then metrics
  else
    let conversions := (channelJourneys.filter (fun j => j.conversion)).length
    let conversionRate := (conversions : ℚ) / (channelJourneys.length : ℚ)
    let positions := channelJourneys.filterMap (fun j =>
      (firstIndex c j.path).map (fun i =>
        (i : ℚ) / ((max (j.path.length - 1) 1 : ℕ) : ℚ)))
    let avgPosition :=
      if positions.isEmpty then 0 else positions.sum / (positions.length : ℚ)
    metrics ++ [⟨c, channelJourneys.length, conversionRate, avgPosition⟩]

/-- `AttributionEngine._calculate_channel_metrics`.  Channels with no
containing journey are skipped. -/
def calculate_channel_metrics (journeys : List Journey)
    (channels : List String) : List ChannelMetrics :=
  channels.foldl (channelMetricsStep journeys) []

/-- The journey filter of `run_analysis` step 1.  Python's
`if filter_channels:` is falsy both for `None` and for an empty list. -/
def filterJourneys (filterChannels : Option (List String))
    (journeys : List Journey) : List Journey :=
  match filterChannels with
  | none => journeys
  | some fs =>
      if fs.isEmpty then journeys
      else journeys.filter (fun j => j.path.any (fun tp => tp.channel ∈ fs))

/-- The channel universe assembled by `run_analysis` step 3: channels of the
filtered journeys, intersected with the filter set when one was given. -/
def analysisChannels (filterChannels : Option (List String))
    (filteredJourneys : List Journey) : List String :=
  let channels := extract_channels filteredJourneys
  match filterChannels with
  | none => channels
  | some fs => if fs.isEmpty then channels else channels.filter (fun c => c ∈ fs)

/-- `AttributionResponse` as assembled by `run_analysis`
(`processing_time_ms`, a wall-clock measurement, is omitted). -/
structure AttributionResponse where
  status : String
  total_journeys : ℕ
  total_conversions : ℕ
  unique_channels : ℕ
  markov_result : Option MarkovResult
  shapley_result : Option ShapleyResult
  hybrid_result : Option HybridResult
  channel_metrics : List ChannelMetrics
  channels_summary : List (String × ℕ)
  deriving DecidableEq

/-- `AttributionEngine.run_analysis`.  The `include_uncertainty` flag is
accepted and, as in the source, never read.  Model selection compares
`alpha` exactly with `0` and `1`; no validation of `alpha` is performed
anywhere in this function.  `none` models an uncaught `ZeroDivisionError`
from the selected model. -/
def run_analysis (shuffle : ℕ → List String → List String) (alpha : ℚ)
    (_includeUncertainty : Bool) (filterChannels : Option (List String))
    (journeys : List Journey) : Option AttributionResponse :=
  let filteredJourneys := filterJourneys filterChannels journeys
  let results :=
    if alpha = 0 then
      (markov_get_full_result filteredJourneys).map
        (fun m => (some m, (none : Option ShapleyResult), (none : Option HybridResult)))
    else if alpha = 1 then
      some (none, some (shapley_get_full_result shuffle 1000 filteredJourneys), none)
    else
      (hybrid_get_full_result shuffle alpha filteredJourneys).map
        (fun h => (none, none, some h))
  match results with
  | none => none
  | some (m, s, h) =>
      let channels := analysisChannels filterChannels filteredJourneys
      let channelMetrics := calculate_channel_metrics filteredJourneys channels
      let totalConversions := (filteredJourneys.filter (fun j => j.conversion)).length
      let channelsSummary := channels.map (fun c =>
        (c, (journeysWith filteredJourneys c).length))
      some ⟨"success", filteredJourneys.length, totalConversions, channels.length,
            m, s, h, channelMetrics, channelsSummary⟩

/-- Modelled from the source `AttributionRequest` pydantic model
(`backend/models/attribution.py`): the `alpha` field carries the constraint
`ge=0.0, le=1.0`, so requests with `alpha` outside `[0, 1]` are rejected at
the API boundary before `run_analysis` is called. -/
def attributionRequestAlphaValid (alpha : ℚ) : Bool :=
  if 0 ≤ alpha ∧ alpha ≤ 1 then true else false

/-! ## Specification-side definitions

These restate quantities the way the spec describes them, independently of
the loop structure of the source, so the claims can compare the two. -/

/-- Number of adjacent occurrences of the pair `(a, b)` in a channel
sequence. -/
def adjacentPairCount (a b : String) : List String → ℕ
  | [] => 0
  | [_] => 0
  | x :: y :: rest =>
      (if x = a ∧ y = b then 1 else 0) + adjacentPairCount a b (y :: rest)

/-- Number of adjacent `(a, b)` pairs across all journey paths. -/
def totalAdjacent (journeys : List Journey) (a b : String) : ℕ :=
  (journeys.map (fun j => adjacentPairCount a b (pathChannels j))).sum

/-- Number of journeys whose last channel is `a`. -/
def endingCount (journeys : List Journey) (a : String) : ℕ :=
  (journeys.filter (fun j => (pathChannels j).getLast? == some a)).length

/-- The spec's coalition value: the conversion rate among journeys whose
entire touchpoint path lies within `S`, journeys touching any channel
outside `S` being excluded from the denominator. -/
def coalitionValueSpec (journeys : List Journey) (S : List String) : ℚ :=
  let qualifying := journeys.filter (fun j => (pathChannels j).all (fun c => c ∈ S))
  if qualifying.isEmpty then 0
  else (qualifying.countP (fun j => j.conversion) : ℚ) / (qualifying.length : ℚ)

/-- `attributionGo` with the `if not journeys_with_channel` fallback branch
removed: used to show that branch is unreachable. -/
def attributionGoNoFallback (journeys : List Journey) (baseline : ℚ) :
    List String → List (String × ℚ) → List (String × ℚ) →
    Option (List (String × ℚ) × List (String × ℚ))
  | [], attributions, removalEffects => some (attributions, removalEffects)
  | c :: rest, attributions, removalEffects =>
      let jwc := journeysWith journeys c
      if baseline = 0 then none
      else
        let conversionsWithout : ℚ :=
          ((jwc.filter (fun j => !j.conversion)).length : ℚ)
        let conversionRateWithout := conversionsWithout / (jwc.length : ℚ)
        let removalEffect := (baseline - conversionRateWithout) / baseline
        let removalEffects' := removalEffects ++ [(c, max 0 removalEffect)]
        let s := sumValues removalEffects'
        let totalEffect := if s = 0 then 1 else s
        attributionGoNoFallback journeys baseline rest
          (attributions ++ [(c, removalEffect / totalEffect)]) removalEffects'

/-- `calculate_attribution` built on the fallback-free loop. -/
def calculate_attribution_no_fallback (journeys : List Journey) :
    Option (List (String × ℚ) × List (String × ℚ)) :=
  if journeys.isEmpty then some ([], [])
  else
    let allConversions : ℕ := (journeys.filter (fun j => j.conversion)).length
    let baseline : ℚ := (allConversions : ℚ) / (journeys.length : ℚ)
    attributionGoNoFallback journeys baseline
      (sortChannels (extract_channels journeys)) [] []

/-- Row access in the transition-matrix dictionary. -/
def rowGet (m : List (String × List (String × ℚ))) (c : String) :
    List (String × ℚ) :=
  (m.lookup c).getD []

/-- The pre-normalisation hybrid blend
`(1-alpha)·markov[c] + alpha·shapley[c]` over the channel universe, with
the Markov attribution dict supplied explicitly. -/
def hybridBlend (shuffle : ℕ → List String → List String) (alpha : ℚ)
    (js : List Journey) (m : List (String × ℚ)) : List (String × ℚ) :=
  (extract_channels js).map (fun c =>
    (c, (1 - alpha) * dictGet m c +
        alpha * dictGet (calculate_shapley_values shuffle 1000 js) c))

/-! ### Concrete inputs used by the claim theorems -/

/-- Build a test journey from a channel list. -/
def mkJ (id : String) (chs : List String) (conv : Bool) : Journey :=
  ⟨id, chs.map (fun c => ⟨c, none⟩), conv, 0, chs.length, 0⟩

/-- A shuffle oracle that leaves the channel list unpermuted (one possible
behaviour of `np.random.shuffle`). -/
def idShuffle : ℕ → List String → List String := fun _ l => l

/-- A second shuffle oracle that agrees with `idShuffle` on the first 500
calls and differs afterwards. -/
def altShuffle : ℕ → List String → List String :=
  fun i l => if i < 500 then l else l.reverse

/-- Two converting `[A, B]` journeys and one non-converting `[B]` journey:
the spec's own toy data set. -/
def c1ex : List Journey :=
  [mkJ "1" ["A", "B"] true, mkJ "2" ["B"] false, mkJ "3" ["A", "B"] true]

/-- One non-converting journey through channel `A`. -/
def c2ex : List Journey := [mkJ "1" ["A"] false]

/-- A converting `[A]` journey and a non-converting `[B]` journey. -/
def c3ex : List Journey := [mkJ "1" ["A"] true, mkJ "2" ["B"] false]

/-- A single converting journey with an empty touchpoint path. -/
def c4ex : List Journey := [⟨"e", [], true, 0, 0, 0⟩]

/-- Two journeys sharing the duplicate path `[A]`, plus one `[A, B]`. -/
def c5ex : List Journey :=
  [mkJ "1" ["A"] true, mkJ "2" ["A"] true, mkJ "3" ["A", "B"] true]

/-- Two non-converting `[A]` journeys and one converting `[B]` journey. -/
def c6ex : List Journey :=
  [mkJ "1" ["A"] false, mkJ "2" ["A"] false, mkJ "3" ["B"] true]

/-- A single converting `[A, B]` journey. -/
def c8ex : List Journey := [mkJ "1" ["A", "B"] true]

/-- A single converting `[A]` journey; used by several witnesses. -/
def oneAJourney : List Journey := [mkJ "1" ["A"] true]

/-- A single converting `[A, B]` journey for the C5 witness. -/
def w5ex : List Journey := [mkJ "1" ["A", "B"] true]

/-! ## Supporting lemmas -/

theorem mem_dedupFirst {x : String} : ∀ {l : List String},
    x ∈ dedupFirst l ↔ x ∈ l := by
  intro l
  induction l with
  | nil => simp [dedupFirst]
  | cons c rest ih =>
      by_cases hx : x = c
      · subst hx; simp [dedupFirst]
      · simp [dedupFirst, List.mem_filter, ih, hx]

theorem mem_extract_channels {c : String} {js : List Journey} :
    c ∈ extract_channels js ↔ ∃ j ∈ js, c ∈ pathChannels j := by
  simp [extract_channels, mem_dedupFirst, List.mem_flatMap]

theorem mem_insertSorted {x c : String} : ∀ {l : List String},
    x ∈ insertSorted c l ↔ x = c ∨ x ∈ l := by
  intro l
  induction l with
  | nil => simp [insertSorted]
  | cons y ys ih =>
      by_cases h : stringLe c y
      · simp [insertSorted, h]
      · simp [insertSorted, h, ih]
        tauto

theorem mem_sortChannels {x : String} : ∀ {l : List String},
    x ∈ sortChannels l ↔ x ∈ l := by
  intro l
  induction l with
  | nil => simp [sortChannels]
  | cons y ys ih =>
      simp only [sortChannels, List.foldr_cons] at ih ⊢
      rw [mem_insertSorted, ih, List.mem_cons]

theorem journeysWith_ne_nil {js : List Journey} {c : String}
    (h : c ∈ extract_channels js) : journeysWith js c ≠ [] := by
  obtain ⟨j, hj, hc⟩ := mem_extract_channels.mp h
  obtain ⟨tp, htp, hch⟩ := List.mem_map.mp hc
  have hmem : j ∈ journeysWith js c := by
    refine List.mem_filter.mpr ⟨hj, ?_⟩
    exact List.any_eq_true.mpr ⟨tp, htp, beq_iff_eq.mpr hch⟩
  exact List.ne_nil_of_mem hmem

theorem lookup_map_self {α : Type} (f : String → α) :
    ∀ {l : List String} {k : String}, k ∈ l →
      (l.map (fun x => (x, f x))).lookup k = some (f k) := by
  intro l
  induction l with
  | nil => intro k hk; cases hk
  | cons x xs ih =>
      intro k hk
      by_cases h : k = x
      · subst h; simp [List.lookup]
      · have hk' : k ∈ xs := by
          rcases List.mem_cons.mp hk with h1 | h1
          · exact absurd h1 h
          · exact h1
        simpa [List.lookup, beq_eq_false_iff_ne.mpr h] using ih hk'

theorem dictGet_dictSet_self : ∀ (d : List (String × ℚ)) (k : String) (v : ℚ),
    dictGet (dictSet d k v) k = v := by
  intro d
  induction d with
  | nil => intro k v; simp [dictGet, dictSet, List.lookup]
  | cons p rest ih =>
      intro k v
      by_cases h : p.1 = k
      · simp [dictGet, dictSet, h, List.lookup]
      · simp only [dictSet, if_neg h]
        simpa [dictGet, List.lookup, beq_eq_false_iff_ne.mpr (Ne.symm h)]
          using ih k v

theorem dictGet_dictSet_ne :
    ∀ (d : List (String × ℚ)) (k k' : String) (v : ℚ), k' ≠ k →
      dictGet (dictSet d k v) k' = dictGet d k' := by
  intro d
  induction d with
  | nil =>
      intro k k' v h
      simp [dictGet, dictSet, List.lookup, beq_eq_false_iff_ne.mpr h]
  | cons p rest ih =>
      intro k k' v h
      by_cases hp : p.1 = k
      · by_cases hq : k' = p.1
        · exact absurd (hq.trans hp) h
        · simp [dictGet, dictSet, hp, List.lookup, beq_eq_false_iff_ne.mpr h]
      · by_cases hq : k' = p.1
        · simp [dictGet, dictSet, hp, List.lookup, hq]
        · simp only [dictSet, if_neg hp]
          simpa [dictGet, List.lookup, beq_eq_false_iff_ne.mpr hq]
            using ih k k' v h

theorem channelMetricsStep_length (js : List Journey)
    (acc : List ChannelMetrics) (c : String) (h : journeysWith js c ≠ []) :
    (channelMetricsStep js acc c).length = acc.length + 1 := by
  have hb : ¬ ((journeysWith js c).isEmpty = true) := fun hb =>
    h (List.isEmpty_iff.mp hb)
  simp [channelMetricsStep, hb]

theorem foldl_channelMetricsStep_length (js : List Journey) :
    ∀ (channels : List String) (acc : List ChannelMetrics),
      (∀ c ∈ channels, journeysWith js c ≠ []) →
      (channels.foldl (channelMetricsStep js) acc).length =
        acc.length + channels.length := by
  intro channels
  induction channels with
  | nil => intro acc _; simp
  | cons c cs ih =>
      intro acc h
      have hne : journeysWith js c ≠ [] := h c (List.mem_cons_self c cs)
      rw [List.foldl_cons,
        ih _ (fun c' hc' => h c' (List.mem_cons_of_mem _ hc')),
        channelMetricsStep_length js acc c hne]
      simp only [List.length_cons]
      omega

theorem attributionGo_eq_noFallback (js : List Journey) (baseline : ℚ) :
    ∀ (cs : List String) (attrs res : List (String × ℚ)),
      (∀ c ∈ cs, journeysWith js c ≠ []) →
      attributionGo js baseline cs attrs res =
        attributionGoNoFallback js baseline cs attrs res := by
  intro cs
  induction cs with
  | nil => intro attrs res _; rfl
  | cons c rest ih =>
      intro attrs res h
      have hne := h c (List.mem_cons_self c rest)
      have hb : ¬ ((journeysWith js c).isEmpty = true) := fun hb =>
        hne (List.isEmpty_iff.mp hb)
      simp only [attributionGo, attributionGoNoFallback, if_neg hb]
      by_cases h0 : baseline = 0
      · simp [h0]
      · simp only [if_neg h0]
        exact ih _ _ (fun c' hc' => h c' (List.mem_cons_of_mem _ hc'))

theorem mem_analysisChannels {fc : Option (List String)} {fjs : List Journey}
    {c : String} (h : c ∈ analysisChannels fc fjs) :
    c ∈ extract_channels fjs := by
  cases fc with
  | none => exact h
  | some fs =>
      by_cases hfs : fs.isEmpty = true
      · simpa [analysisChannels, hfs] using h
      · have h' := h
        simp [analysisChannels, hfs, List.mem_filter] at h'
        exact h'.1

theorem sampleLoop_congr (js : List Journey) (L : List String)
    (s1 s2 : ℕ → List String → List String) :
    ∀ (count i : ℕ) (st : List (String × ℚ) × (String → ℕ)),
      (∀ i', i ≤ i' → i' < i + count → s1 i' L = s2 i' L) →
      sampleLoop js s1 L i count st = sampleLoop js s2 L i count st := by
  intro count
  induction count with
  | zero => intro i st _; rfl
  | succ k ih =>
      intro i st h
      simp only [sampleLoop]
      rw [h i (le_refl i) (by omega)]
      exact ih (i + 1) _ (fun i' h1 h2 => h i' (by omega) (by omega))

theorem addAdjacent_apply (a b : String) :
    ∀ (p : List String) (t : String → String → ℕ),
      addAdjacent t p a b = t a b + adjacentPairCount a b p := by
  intro p
  induction p with
  | nil => intro t; simp [addAdjacent, adjacentPairCount]
  | cons x xs ih =>
      cases xs with
      | nil => intro t; simp [addAdjacent, adjacentPairCount]
      | cons y ys =>
          intro t
          simp only [addAdjacent, adjacentPairCount]
          rw [ih]
          unfold update2
          by_cases hab : a = x ∧ b = y
          · obtain ⟨rfl, rfl⟩ := hab
            simp
            omega
          · have hab' : ¬ (x = a ∧ y = b) := fun ⟨h1, h2⟩ =>
              hab ⟨h1.symm, h2.symm⟩
            simp [hab, hab']

theorem adjacentPairCount_eq_zero {b : String} :
    ∀ {p : List String}, b ∉ p → ∀ a, adjacentPairCount a b p = 0 := by
  intro p
  induction p with
  | nil => intro _ a; rfl
  | cons x xs ih =>
      cases xs with
      | nil => intro _ a; rfl
      | cons y ys =>
          intro h a
          have hy : ¬ (x = a ∧ y = b) := fun ⟨_, h2⟩ =>
            h (by rw [← h2] at *; exact List.mem_cons_of_mem _ (List.mem_cons_self _ _))
          simp only [adjacentPairCount, if_neg hy, zero_add]
          exact ih (fun hb => h (List.mem_cons_of_mem _ hb)) a

theorem buildTransitions_char :
    ∀ (js : List Journey) (st : (String → String → ℕ) × (List String → ℕ)),
      (∀ j ∈ js, pathChannels j ≠ [] → st.2 (pathChannels j) = 0) →
      ((js.map pathChannels).filter (fun p => !p.isEmpty)).Nodup →
      ∀ a b, (js.foldl buildStep st).1 a b =
        st.1 a b + totalAdjacent js a b +
          (if b = "conversion" then endingCount js a else 0) := by
  intro js
  induction js with
  | nil =>
      intro st _ _ a b
      simp [totalAdjacent, endingCount]
  | cons j rest ih =>
      intro st hst hnd a b
      rw [List.foldl_cons]
      cases hp : pathChannels j with
      | nil =>
          have hstep : buildStep st j = st := by
            simp [buildStep, hp]
          have hnd' : ((rest.map pathChannels).filter (fun p => !p.isEmpty)).Nodup := by
            simpa [hp, List.filter_cons] using hnd
          rw [hstep,
            ih st (fun j' hj' => hst j' (List.mem_cons_of_mem _ hj')) hnd' a b]
          have h1 : totalAdjacent (j :: rest) a b = totalAdjacent rest a b := by
            simp [totalAdjacent, hp, adjacentPairCount]
          have h2 : endingCount (j :: rest) a = endingCount rest a := by
            simp [endingCount, List.filter_cons, hp]
          rw [h1, h2]
      | cons c cs =>
          have hne : pathChannels j ≠ [] := by rw [hp]; simp
          have hcount : st.2 (c :: cs) = 0 := by
            have h := hst j (List.mem_cons_self j rest) hne
            rwa [hp] at h
          have hndc := hnd
          simp only [List.map_cons, hp, List.filter_cons, List.isEmpty_cons,
            Bool.not_false, if_pos, List.nodup_cons] at hndc
          have hnotmem := hndc.1
          have hnd' := hndc.2
          have hstep : buildStep st j =
              (update2 (addAdjacent st.1 (c :: cs))
                 ((c :: cs).getLast (List.cons_ne_nil c cs)) "conversion"
                 (addAdjacent st.1 (c :: cs)
                    ((c :: cs).getLast (List.cons_ne_nil c cs)) "conversion" + 1),
               fun q => if q = c :: cs then st.2 (c :: cs) + 1 else st.2 q) := by
            simp only [buildStep, hp]
            simp [hcount]
          have hstA : ∀ j' ∈ rest, pathChannels j' ≠ [] →
              (if pathChannels j' = c :: cs then st.2 (c :: cs) + 1
               else st.2 (pathChannels j')) = 0 := by
            intro j' hj' hne'
            by_cases heq : pathChannels j' = c :: cs
            · exact absurd (List.mem_filter.mpr
                ⟨List.mem_map.mpr ⟨j', hj', heq⟩, by simp⟩) hnotmem
            · rw [if_neg heq]
              exact hst j' (List.mem_cons_of_mem _ hj') hne'
          rw [hstep, ih _ hstA hnd' a b]
          have h1 : totalAdjacent (j :: rest) a b =
              adjacentPairCount a b (c :: cs) + totalAdjacent rest a b := by
            simp [totalAdjacent, hp]
          have hL : (pathChannels j).getLast? =
              some ((c :: cs).getLast (List.cons_ne_nil c cs)) := by
            rw [hp]
            exact List.getLast?_eq_getLast _ _
          have h2 : endingCount (j :: rest) a =
              endingCount rest a +
                (if (c :: cs).getLast (List.cons_ne_nil c cs) = a then 1 else 0) := by
            simp only [endingCount, List.filter_cons, hL]
            by_cases hla : (c :: cs).getLast (List.cons_ne_nil c cs) = a
            · simp [hla]
            · simp [hla]
          rw [h1, h2]
          by_cases hb : b = "conversion"
          · subst hb
            by_cases hla : a = (c :: cs).getLast (List.cons_ne_nil c cs)
            · subst hla
              simp only [update2, and_self, if_pos rfl, if_true,
                addAdjacent_apply]
              omega
            · have hla' : ¬ ((c :: cs).getLast (List.cons_ne_nil c cs) = a) :=
                fun h => hla h.symm
              simp only [update2, addAdjacent_apply, hla, hla', false_and,
                and_true, if_false, if_true]
              omega
          · simp only [update2, addAdjacent_apply, hb, and_false, if_false]
            omega

theorem sumValues_map_div (d : List (String × ℚ)) (t : ℚ) :
    sumValues (d.map (fun kv => (kv.1, kv.2 / t))) = sumValues d / t := by
  induction d with
  | nil => simp [sumValues]
  | cons p rest ih =>
      simp only [sumValues, List.map_cons, List.map_map, List.sum_cons] at ih ⊢
      rw [add_div, ← ih]

theorem totalAdjacent_eq_zero_of_not_mem {b : String} :
    ∀ (js : List Journey), (∀ j ∈ js, b ∉ pathChannels j) →
      ∀ a, totalAdjacent js a b = 0 := by
  intro js
  induction js with
  | nil => intro _ a; rfl
  | cons j rest ih =>
      intro h a
      simp only [totalAdjacent, List.map_cons, List.sum_cons]
      rw [adjacentPairCount_eq_zero (h j (List.mem_cons_self j rest)) a]
      have := ih (fun j' hj' => h j' (List.mem_cons_of_mem _ hj')) a
      simp only [totalAdjacent] at this
      omega

theorem buildTransitions_apply (js : List Journey)
    (hnd : ((js.map pathChannels).filter (fun p => !p.isEmpty)).Nodup) :
    ∀ a b, (buildTransitions js).1 a b =
      totalAdjacent js a b +
        (if b = "conversion" then endingCount js a else 0) := by
  intro a b
  have h := buildTransitions_char js (fun _ _ => 0, fun _ => 0)
    (fun _ _ _ => rfl) hnd a b
  simpa [buildTransitions] using h

theorem dictGet_transitionRow (t : String → String → ℕ) (L : List String)
    (c k : String) (hC : "conversion" ∉ L) (hk : k ∈ L ∨ k = "conversion") :
    dictGet (transitionRow t L c) k =
      (t c k : ℚ) / (if rowTotal t L c = 0 then 1 else (rowTotal t L c : ℚ)) := by
  rcases hk with hkl | rfl
  · have hkc : k ≠ "conversion" := fun h => hC (h ▸ hkl)
    simp only [transitionRow]
    rw [dictGet_dictSet_ne _ _ _ _ hkc]
    simp only [dictGet]
    rw [lookup_map_self _ hkl]
    rfl
  · simp only [transitionRow]
    rw [dictGet_dictSet_self]

theorem rowGet_build_transition_matrix (js : List Journey) (c : String)
    (hc : c ∈ extract_channels js) :
    rowGet (build_transition_matrix js) c =
      transitionRow (buildTransitions js).1 (extract_channels js) c := by
  simp only [build_transition_matrix, rowGet]
  rw [lookup_map_self _ hc]
  rfl

theorem get_conversion_rate_eq_spec (js : List Journey) (S : List String) :
    get_conversion_rate js S = coalitionValueSpec js S := by
  have hall : ∀ l : List TouchPoint,
      ((l.map TouchPoint.channel).all (fun c => c ∈ S)) =
        (l.all (fun tp => tp.channel ∈ S)) := by
    intro l
    induction l with
    | nil => rfl
    | cons tp tps ih => simp [ih]
  have hpred : ∀ j : Journey,
      ((pathChannels j).all (fun c => c ∈ S)) =
        (j.path.all (fun tp => tp.channel ∈ S)) := by
    intro j
    simp only [pathChannels, hall]
  simp only [get_conversion_rate, coalitionValueSpec, hpred,
    List.countP_eq_length_filter]

theorem get_conversion_rate_empty (js : List Journey)
    (h : ∀ j ∈ js, j.path ≠ []) : get_conversion_rate js [] = 0 := by
  have hfil : js.filter
      (fun j => j.path.all (fun tp => tp.channel ∈ ([] : List String))) = [] := by
    rw [List.filter_eq_nil_iff]
    intro j hj
    cases hpath : j.path with
    | nil => exact absurd hpath (h j hj)
    | cons tp tps => simp [hpath]
  simp only [get_conversion_rate]
  rw [hfil]
  simp

theorem calculate_attribution_eq_no_fallback (js : List Journey) :
    calculate_attribution js = calculate_attribution_no_fallback js := by
  by_cases hemp : js.isEmpty = true
  · simp [calculate_attribution, calculate_attribution_no_fallback, hemp]
  · simp only [calculate_attribution, calculate_attribution_no_fallback,
      if_neg hemp]
    exact attributionGo_eq_noFallback _ _ _ [] []
      (fun c hc => journeysWith_ne_nil (mem_sortChannels.mp hc))

/-! ## Claim theorems -/

/-- C1: on `c1ex` (the spec's own toy data) the removal effects stored by
`calculate_attribution` are `A ↦ 1, B ↦ 1/2`, whose sum `3/2` is positive —
yet the attribution of `A` is `1`, not `1 / (3/2) = 2/3`, because the
source normalises by the running sum of effects inside the loop, and the
attributions sum to `4/3`, outside the `1e-6` band around `1`.  There is
also no uniform `1/n` fallback anywhere in the code. -/
theorem c1_markov_share_not_normalized :
    calculate_attribution c1ex =
      some ([("A", 1), ("B", 1/3)], [("A", 1), ("B", 1/2)]) ∧
    sumValues [("A", 1), ("B", 1/2)] = 3/2 ∧
    dictGet [("A", 1), ("B", 1/3)] "A" = 1 ∧
    (1 : ℚ) ≠ 1 / (3/2) ∧
    sumValues [("A", 1), ("B", 1/3)] = 4/3 ∧
    ¬ (|(4/3 : ℚ) - 1| ≤ 1/1000000) := by decide

/-- C2: `c2ex` is a non-empty journey list with no conversion, and
`calculate_attribution` hits the unguarded division
`(baseline - conversion_rate_without) / baseline` with `baseline = 0`
(modelled by `none`), instead of returning zero removal effects. -/
theorem c2_zero_conversion_division_error :
    c2ex ≠ [] ∧ (∀ j ∈ c2ex, j.conversion = false) ∧
    calculate_attribution c2ex = none := by decide

/-- C3: on `c3ex` the Markov attribution of channel `B` is `-1`: the code
stores `max(0, effect)` into `removal_effects` but divides the raw,
negative `removal_effect` when computing the attribution, so the
channel-keyed attribution mapping is not non-negative even though the total
removal effect `1` is not degenerate. -/
theorem c3_negative_attribution :
    calculate_attribution c3ex =
      some ([("A", 1), ("B", -1)], [("A", 1), ("B", 0)]) ∧
    dictGet [("A", 1), ("B", -1)] "B" < 0 ∧
    sumValues [("A", 1), ("B", 0)] ≠ 0 := by decide

/-- C4 counterexample: a converting journey with an empty path qualifies
for every coalition, so `v(∅)` is its conversion rate `1`, not `0`. -/
theorem c4_empty_coalition_counterexample :
    get_conversion_rate c4ex [] = 1 ∧ (1 : ℚ) ≠ 0 := by decide

/-- C4 (amended): for every journey list and channel set `S` the coalition
value equals the conversion rate among journeys whose entire touchpoint
path lies within `S` (journeys touching any channel outside `S` excluded
from the denominator); and `v(∅) = 0` holds provided every journey's path
is non-empty (a journey with an empty path always qualifies, so `v(∅)`
equals the conversion rate of the empty-path journeys). -/
theorem c4_coalition_value (js : List Journey) (S : List String) :
    get_conversion_rate js S = coalitionValueSpec js S ∧
      ((∀ j ∈ js, j.path ≠ []) → get_conversion_rate js [] = 0) :=
  ⟨get_conversion_rate_eq_spec js S, get_conversion_rate_empty js⟩

/-- C4 witness at a concrete input. -/
theorem c4_coalition_value_witness :
    get_conversion_rate oneAJourney ["A"] = coalitionValueSpec oneAJourney ["A"] ∧
      get_conversion_rate oneAJourney [] = 0 :=
  ⟨(c4_coalition_value oneAJourney ["A"]).1,
   (c4_coalition_value oneAJourney ["A"]).2 (by decide)⟩

/-- C5 counterexample: with the duplicate path `[A]` occurring twice, the
code's transition count from `A` to the `conversion` state is `3` (each
journey adds the *running multiplicity* of its path), while the number of
journeys whose last channel is `A` is `2`. -/
theorem c5_duplicate_path_counterexample :
    (buildTransitions c5ex).1 "A" "conversion" = 3 ∧
    endingCount c5ex "A" = 2 ∧ (3 : ℕ) ≠ 2 := by decide

/-- C5 (amended): provided no two journeys share the same non-empty channel
path and no channel is literally named `"conversion"`, the transition count
from `a` to `b` equals the number of adjacent `(a, b)` pairs across all
paths, the count from `a` to the synthetic `conversion` state equals the
number of journeys whose last channel is `a`, and each defined row entry of
the transition matrix is the corresponding count divided by the row total
(guarded by `or 1`).  A path occurring `k` times instead contributes its
running multiplicity `1 + 2 + ⋯ + k` to the conversion count. -/
theorem c5_transition_structure (js : List Journey)
    (hnd : ((js.map pathChannels).filter (fun p => !p.isEmpty)).Nodup)
    (hC : "conversion" ∉ extract_channels js) :
    (∀ a b, b ≠ "conversion" →
        (buildTransitions js).1 a b = totalAdjacent js a b) ∧
    (∀ a, (buildTransitions js).1 a "conversion" = endingCount js a) ∧
    (∀ c ∈ extract_channels js, ∀ k,
        k ∈ extract_channels js ∨ k = "conversion" →
        dictGet (rowGet (build_transition_matrix js) c) k =
          ((buildTransitions js).1 c k : ℚ) /
            (if rowTotal (buildTransitions js).1 (extract_channels js) c = 0
             then 1
             else (rowTotal (buildTransitions js).1 (extract_channels js) c : ℚ))) := by
  refine ⟨?_, ?_, ?_⟩
  · intro a b hb
    rw [buildTransitions_apply js hnd, if_neg hb]
    omega
  · intro a
    rw [buildTransitions_apply js hnd, if_pos rfl]
    have hz : totalAdjacent js a "conversion" = 0 :=
      totalAdjacent_eq_zero_of_not_mem js
        (fun j hj hmem => hC (mem_extract_channels.mpr ⟨j, hj, hmem⟩)) a
    omega
  · intro c hc k hk
    rw [rowGet_build_transition_matrix js c hc]
    exact dictGet_transitionRow _ _ c k hC hk

/-- C5 witness at a concrete input with distinct paths. -/
theorem c5_transition_structure_witness :
    (((w5ex.map pathChannels).filter (fun p => !p.isEmpty)).Nodup) ∧
    (buildTransitions w5ex).1 "A" "B" = totalAdjacent w5ex "A" "B" ∧
    (buildTransitions w5ex).1 "B" "conversion" = endingCount w5ex "B" :=
  ⟨by decide,
   (c5_transition_structure w5ex (by decide) (by decide)).1 "A" "B" (by decide),
   (c5_transition_structure w5ex (by decide) (by decide)).2.1 "B"⟩

/-- C6 counterexample: on `c6ex` with `alpha = 1/2` (strictly between 0
and 1) the blended values are `A ↦ -1, B ↦ 1`, whose sum is `0`; the `or 1`
guard then divides by `1`, so the returned hybrid attributions sum to `0`,
not `1 ± 1e-6`. -/
theorem c6_hybrid_sum_counterexample :
    (0 : ℚ) < 1/2 ∧ (1/2 : ℚ) < 1 ∧
    hybrid_calculate_attribution idShuffle (1/2) c6ex =
      some [("A", -1), ("B", 1)] ∧
    sumValues [("A", -1), ("B", 1)] = 0 ∧
    ¬ (|(0 : ℚ) - 1| ≤ 1/1000000) := by decide

/-- C6 (amended): whenever the Markov step does not raise and the blended
total `Σ_c (1-α)·markov[c] + α·shapley[c]` over the channel universe is
nonzero, each hybrid value is the blend divided by that total and the
hybrid values sum to exactly `1`; when the blended total is `0` the code
divides by `1` instead, leaving a sum of `0`. -/
theorem c6_hybrid_blend (js : List Journey) (alpha : ℚ)
    (shuffle : ℕ → List String → List String) (m re : List (String × ℚ))
    (hm : calculate_attribution js = some (m, re))
    (hs : sumValues (hybridBlend shuffle alpha js m) ≠ 0) :
    hybrid_calculate_attribution shuffle alpha js =
      some ((hybridBlend shuffle alpha js m).map
        (fun kv => (kv.1, kv.2 / sumValues (hybridBlend shuffle alpha js m)))) ∧
    sumValues ((hybridBlend shuffle alpha js m).map
      (fun kv => (kv.1, kv.2 / sumValues (hybridBlend shuffle alpha js m)))) = 1 := by
  constructor
  · simp only [hybridBlend] at hs ⊢
    simp only [hybrid_calculate_attribution, hm]
    rw [if_neg hs]
  · rw [sumValues_map_div]
    exact div_self hs

/-- C6 witness at a concrete input. -/
theorem c6_hybrid_blend_witness :
    hybrid_calculate_attribution idShuffle (1/2) oneAJourney =
      some [("A", (1 : ℚ))] ∧ sumValues [("A", (1 : ℚ))] = 1 := by
  have h := c6_hybrid_blend oneAJourney (1/2) idShuffle
    [("A", 1)] [("A", 1)] (by decide) (by decide)
  refine ⟨?_, by decide⟩
  rw [h.1]
  decide

/-- C6 counterexample is checked against `hybridBlend` too: the blended sum
on `c6ex` at `alpha = 1/2` really is `0`. -/
theorem c6_blend_sum_zero :
    sumValues (hybridBlend idShuffle (1/2) c6ex [("A", -2), ("B", 1)]) = 0 ∧
    calculate_attribution c6ex =
      some ([("A", -2), ("B", 1)], [("A", 0), ("B", 1)]) := by decide

/-- C7: whenever `run_analysis` returns a result, exactly one model result
is populated: the Markov result iff `alpha = 0`, the Shapley result iff
`alpha = 1`, and the hybrid result iff `0 < alpha < 1`. -/
theorem c7_model_selection (shuffle : ℕ → List String → List String)
    (alpha : ℚ) (inc : Bool) (fc : Option (List String))
    (js : List Journey) (r : AttributionResponse)
    (h : run_analysis shuffle alpha inc fc js = some r) :
    (alpha = 0 → r.markov_result.isSome = true ∧
        r.shapley_result = none ∧ r.hybrid_result = none) ∧
    (alpha = 1 → r.markov_result = none ∧
        r.shapley_result.isSome = true ∧ r.hybrid_result = none) ∧
    (0 < alpha → alpha < 1 → r.markov_result = none ∧
        r.shapley_result = none ∧ r.hybrid_result.isSome = true) := by
  simp only [run_analysis] at h
  by_cases h0 : alpha = 0
  · rw [if_pos h0] at h
    cases hm : markov_get_full_result (filterJourneys fc js) with
    | none => rw [hm] at h; simp at h
    | some mr =>
        rw [hm] at h
        simp at h
        subst h
        refine ⟨fun _ => ⟨rfl, rfl, rfl⟩, fun h1 => ?_, fun h2 _ => ?_⟩
        · rw [h0] at h1; norm_num at h1
        · rw [h0] at h2; exact absurd h2 (lt_irrefl 0)
  · rw [if_neg h0] at h
    by_cases h1 : alpha = 1
    · rw [if_pos h1] at h
      simp only [Option.some.injEq] at h
      subst h
      refine ⟨fun he => absurd he h0, fun _ => ⟨rfl, rfl, rfl⟩,
        fun _ hlt => ?_⟩
      rw [h1] at hlt; exact absurd hlt (lt_irrefl 1)
    · rw [if_neg h1] at h
      cases hh : hybrid_get_full_result shuffle alpha (filterJourneys fc js) with
      | none => rw [hh] at h; simp at h
      | some hr =>
          rw [hh] at h
          simp at h
          subst h
          exact ⟨fun he => absurd he h0, fun he => absurd he h1,
            fun _ _ => ⟨rfl, rfl, rfl⟩⟩

/-- C7 witness at a concrete input with `alpha = 0`. -/
theorem c7_model_selection_witness :
    ∃ r, run_analysis idShuffle 0 true none oneAJourney = some r ∧
      r.markov_result.isSome = true ∧ r.shapley_result = none ∧
      r.hybrid_result = none := by
  obtain ⟨r, hr⟩ := Option.isSome_iff_exists.mp
    (show (run_analysis idShuffle 0 true none oneAJourney).isSome = true by decide)
  exact ⟨r, hr, (c7_model_selection _ _ _ _ _ r hr).1 rfl⟩

/-- C8 counterexample: calling `run_analysis` with `alpha = 2` does not
fail — it silently computes a hybrid result blended with the out-of-range
weight. -/
theorem c8_no_validation_counterexample :
    (run_analysis idShuffle 2 true none c8ex).isSome = true ∧
    (run_analysis idShuffle 2 true none c8ex).map
      (fun r => r.hybrid_result.isSome) = some true := by decide

/-- C8 (amended): alpha outside `[0, 1]` is rejected by the
`AttributionRequest` pydantic model used at the API boundary, not by
`run_analysis` itself, which performs no alpha validation and computes a
hybrid result for out-of-range alpha. -/
theorem c8_alpha_validation (alpha : ℚ) (h : alpha < 0 ∨ 1 < alpha) :
    attributionRequestAlphaValid alpha = false ∧
      (run_analysis idShuffle alpha true none c8ex).isSome = true := by
  have h0 : alpha ≠ 0 := by
    rcases h with h | h
    · exact ne_of_lt h
    · exact ne_of_gt (lt_trans one_pos h)
  have h1 : alpha ≠ 1 := by
    rcases h with h | h
    · exact ne_of_lt (lt_trans h one_pos)
    · exact ne_of_gt h
  constructor
  · unfold attributionRequestAlphaValid
    rw [if_neg]
    rcases h with h | h
    · exact fun hc => absurd h (not_lt.mpr hc.1)
    · exact fun hc => absurd h (not_lt.mpr hc.2)
  · have hm : calculate_attribution c8ex =
        some ([("A", 1), ("B", (1 : ℚ)/2)], [("A", 1), ("B", 1)]) := by decide
    have hh : ∃ hr, hybrid_get_full_result idShuffle alpha c8ex = some hr := by
      simp only [hybrid_get_full_result, hybrid_calculate_attribution, hm]
      exact ⟨_, rfl⟩
    obtain ⟨hr, hh⟩ := hh
    simp only [run_analysis, if_neg h0, if_neg h1, filterJourneys] at hh ⊢
    rw [hh]
    simp

/-- C8 witness at `alpha = 2`. -/
theorem c8_alpha_validation_witness :
    attributionRequestAlphaValid 2 = false ∧
      (run_analysis idShuffle 2 true none c8ex).isSome = true :=
  c8_alpha_validation 2 (Or.inr (by norm_num))

/-- C9: the Shapley computation is a deterministic function of the random
source — two shuffle oracles that agree on the `num_samples` shuffles
actually consumed (as identical seeded random states do) yield identical
`channel_values`. -/
theorem c9_shapley_determinism (js : List Journey) (maxIter : ℕ)
    (s1 s2 : ℕ → List String → List String)
    (h : ∀ i < min maxIter (2 ^ (extract_channels js).length),
        s1 i (extract_channels js) = s2 i (extract_channels js)) :
    calculate_shapley_values s1 maxIter js =
      calculate_shapley_values s2 maxIter js := by
  by_cases hemp : js.isEmpty = true ∨ (extract_channels js).isEmpty = true
  · simp only [calculate_shapley_values, if_pos hemp]
  · simp only [calculate_shapley_values, if_neg hemp]
    rw [sampleLoop_congr js (extract_channels js) s1 s2 _ 0 _
      (fun i' _ h2 => h i' (by simpa using h2))]

/-- C9 witness: two different oracles agreeing on the consumed prefix. -/
theorem c9_shapley_determinism_witness :
    calculate_shapley_values idShuffle 1000 oneAJourney =
      calculate_shapley_values altShuffle 1000 oneAJourney :=
  c9_shapley_determinism oneAJourney 1000 idShuffle altShuffle
    (fun i hi => by
      have hlen : min 1000 (2 ^ (extract_channels oneAJourney).length) = 2 := by
        decide
      rw [hlen] at hi
      have h500 : i < 500 := by omega
      simp [idShuffle, altShuffle, h500])

/-- C10: every channel of the extracted universe occurs in at least one
journey's path, so `journeys_with_channel` is never empty, the
empty-channel fallback branch of `calculate_attribution` is unreachable
(removing it does not change the function), and the empty-`channel_journeys`
skip of `_calculate_channel_metrics` never fires in `run_analysis` (one
metrics row is produced per channel, for any channel filter). -/
theorem c10_channel_universe (js : List Journey) :
    (∀ c ∈ extract_channels js, journeysWith js c ≠ []) ∧
    calculate_attribution js = calculate_attribution_no_fallback js ∧
    (∀ fc, (calculate_channel_metrics (filterJourneys fc js)
        (analysisChannels fc (filterJourneys fc js))).length =
      (analysisChannels fc (filterJourneys fc js)).length) := by
  refine ⟨fun c hc => journeysWith_ne_nil hc,
    calculate_attribution_eq_no_fallback js, ?_⟩
  intro fc
  have h := foldl_channelMetricsStep_length (filterJourneys fc js)
    (analysisChannels fc (filterJourneys fc js)) []
    (fun c hc => journeysWith_ne_nil (mem_analysisChannels hc))
  simpa [calculate_channel_metrics] using h

/-- C10 witness at a concrete input. -/
theorem c10_channel_universe_witness :
    journeysWith oneAJourney "A" ≠ [] ∧
    calculate_attribution oneAJourney =
      calculate_attribution_no_fallback oneAJourney ∧
    (calculate_channel_metrics (filterJourneys none oneAJourney)
        (analysisChannels none (filterJourneys none oneAJourney))).length =
      (analysisChannels none (filterJourneys none oneAJourney)).length :=
  ⟨(c10_channel_universe oneAJourney).1 "A" (by decide),
   (c10_channel_universe oneAJourney).2.1,
   (c10_channel_universe oneAJourney).2.2 none⟩

end

end Attribution
